import Mathlib

/-!
Verification of the PythonTool repository's slot scheduler and git sync engine.

The definitions below are shallow embeddings of the Python sources:
  * `genSlots`        embeds `DailyRandomScheduler._generate_time_slots`
                      (src/June/DailyRandomScheduler.py, identical copy in
                      src/June/WeekendAutoPushScheduler.py and the May variants);
  * the `Sched`/`DayState` operations embed `_schedule_daily_jobs` of the two
    June scheduler variants on top of the `schedule` library's job registry;
  * `executePushFlow`/`autoPushJune` embed `GitAutoPusher` of
    src/June/AutoPushGitHub.py;
  * `autoPushMay` embeds `auto_push` of src/May/AutoPushGitHub.py.

Time values are integer seconds (the Python code works with `timedelta`s whose
second counts are integral on every path).  Randomness is an oracle: the n-th
call of `random.randint(lo, hi)` receives an arbitrary natural `r` and returns
`lo + r % (hi - lo + 1)`, which ranges over exactly `[lo, hi]` when `lo ≤ hi`,
the only situation in which the Python code calls it.  External git processes
are an oracle mapping the index of the issued command to its result.
-/

/-- Model of `random.randint lo hi`: the draw oracle supplies `r`, and the
result is `lo + r % (hi - lo + 1)`, covering exactly `[lo, hi]` for `lo ≤ hi`. -/
def randint (lo hi : Int) (r : Nat) : Int :=
  lo + (r : Int) % (hi - lo + 1)

/-- Embeds the `for _ in range(task_count - 1)` loop of
`DailyRandomScheduler._generate_time_slots`.  `fuel` is the number of loop
iterations left, `len` is `len(time_slots)` at loop entry, `last` is
`last_time`; `rs` is the randint oracle indexed by the current length. -/
def genLoop (endT spacing : Int) (n : Nat) (rs : Nat → Nat) :
    Nat → Nat → Int → List Int
  | 0, _, _ => []
  | fuel + 1, len, last =>
      let minNext := last + spacing
      let maxNext := endT - ((n : Int) - (len : Int) - 1) * spacing
      if maxNext ≤ minNext then []
      else
        let next := randint minNext maxNext (rs len)
        next :: genLoop endT spacing n rs fuel (len + 1) next

/-- Embeds `DailyRandomScheduler._generate_time_slots` for a drawn task count
`n` (in the source `n = random.randint(*self._job_count_range)`); `startT` and
`endT` are `self._start_time` and `self._end_time` in seconds from midnight and
`spacing` is `self._min_interval` in seconds. -/
def genSlots (startT endT spacing : Int) (n : Nat) (rs : Nat → Nat) : List Int :=
  let total := endT - startT
  let minRequired := ((n : Int) - 1) * spacing
  if total < minRequired then []
  else
    let first := startT + randint 0 (total - minRequired) (rs 0)
    first :: genLoop endT spacing n rs (n - 1) 1 first

/-- Successive elements of the list differ by at least `spacing`. -/
def chainSpaced (spacing : Int) : List Int → Bool
  | [] => true
  | [_] => true
  | a :: b :: l => (decide (a + spacing ≤ b)) && chainSpaced spacing (b :: l)

/-- Every element lies in the closed window `[lo, hi]`. -/
def allInWindow (lo hi : Int) (l : List Int) : Bool :=
  l.all fun x => decide (lo ≤ x) && decide (x ≤ hi)

theorem randint_bounds (lo hi : Int) (r : Nat) (h : lo ≤ hi) :
    lo ≤ randint lo hi r ∧ randint lo hi r ≤ hi := by
  unfold randint
  have hm : (0 : Int) < hi - lo + 1 := by omega
  have h1 : 0 ≤ (r : Int) % (hi - lo + 1) := Int.emod_nonneg _ (by omega)
  have h2 : (r : Int) % (hi - lo + 1) < hi - lo + 1 := Int.emod_lt_of_pos _ hm
  omega

theorem genLoop_spec (endT spacing : Int) (n : Nat) (rs : Nat → Nat)
    (hsp : 0 ≤ spacing) :
    ∀ fuel len last, len + fuel = n →
      chainSpaced spacing (last :: genLoop endT spacing n rs fuel len last) = true ∧
      (∀ x ∈ genLoop endT spacing n rs fuel len last,
        last + spacing ≤ x ∧ x ≤ endT) ∧
      (genLoop endT spacing n rs fuel len last).length ≤ fuel := by
  intro fuel
  induction fuel with
  | zero =>
      intro len last _
      refine ⟨rfl, ?_, by simp [genLoop]⟩
      intro x hx
      simp [genLoop] at hx
  | succ f ih =>
      intro len last hlen
      by_cases hguard :
          endT - ((n : Int) - (len : Int) - 1) * spacing ≤ last + spacing
      · refine ⟨?_, ?_, ?_⟩ <;> simp [genLoop, hguard, chainSpaced]
      · have hlt : last + spacing < endT - ((n : Int) - (len : Int) - 1) * spacing := by
          omega
        have hle : last + spacing ≤ endT - ((n : Int) - (len : Int) - 1) * spacing :=
          le_of_lt hlt
        obtain ⟨hb1, hb2⟩ :=
          randint_bounds (last + spacing)
            (endT - ((n : Int) - (len : Int) - 1) * spacing) (rs len) hle
        set next := randint (last + spacing)
            (endT - ((n : Int) - (len : Int) - 1) * spacing) (rs len) with hnext
        have hrec := ih (len + 1) next (by omega)
        obtain ⟨hchain, hmem, hlength⟩ := hrec
        have hnfuel : ((n : Int) - (len : Int) - 1) = (f : Int) := by
          have : len + (f + 1) = n := hlen
          omega
        have hnextEnd : next ≤ endT := by
          have hfs : 0 ≤ ((n : Int) - (len : Int) - 1) * spacing := by
            rw [hnfuel]
            exact mul_nonneg (by positivity) hsp
          omega
        have hunf : genLoop endT spacing n rs (f + 1) len last =
            next :: genLoop endT spacing n rs f (len + 1) next := by
          simp [genLoop, not_le.mpr hlt, hnext]
        refine ⟨?_, ?_, ?_⟩
        · rw [hunf]
          have : chainSpaced spacing (last :: next ::
              genLoop endT spacing n rs f (len + 1) next) =
              ((decide (last + spacing ≤ next)) && chainSpaced spacing
                (next :: genLoop endT spacing n rs f (len + 1) next)) := rfl
          rw [this, hchain, decide_eq_true hb1]
          rfl
        · rw [hunf]
          intro x hx
          rcases List.mem_cons.mp hx with hx | hx
          · exact ⟨hx ▸ hb1, hx ▸ hnextEnd⟩
          · obtain ⟨h1, h2⟩ := hmem x hx
            exact ⟨by omega, h2⟩
        · rw [hunf]
          simpa using Nat.succ_le_succ hlength

/-- C4: for a valid slot specification (window start < end, nonnegative
minimum spacing, `1 ≤ minCount ≤ maxCount`) and any drawn count `n` in
`[minCount, maxCount]`, `_generate_time_slots` yields a sequence whose
consecutive slots differ by at least the spacing, whose slots all lie inside
the window, whose length is at most `n`, and which is non-empty whenever the
window width is at least `(n-1) * spacing`. -/
theorem generate_time_slots_valid (startT endT spacing : Int)
    (minCount maxCount n : Nat) (rs : Nat → Nat)
    (hwin : startT < endT) (hsp : 0 ≤ spacing)
    (hmin : 1 ≤ minCount) (hcc : minCount ≤ maxCount)
    (hnlo : minCount ≤ n) (hnhi : n ≤ maxCount) :
    chainSpaced spacing (genSlots startT endT spacing n rs) = true ∧
    allInWindow startT endT (genSlots startT endT spacing n rs) = true ∧
    (genSlots startT endT spacing n rs).length ≤ n ∧
    (((n : Int) - 1) * spacing ≤ endT - startT →
      genSlots startT endT spacing n rs ≠ []) := by
  have hn1 : 1 ≤ n := le_trans hmin hnlo
  by_cases hguard : endT - startT < ((n : Int) - 1) * spacing
  · refine ⟨?_, ?_, ?_, ?_⟩ <;> simp [genSlots, hguard, chainSpaced, allInWindow]
  · have hreq : ((n : Int) - 1) * spacing ≤ endT - startT := not_lt.mp hguard
    have hreqpos : 0 ≤ ((n : Int) - 1) * spacing := by
      apply mul_nonneg _ hsp
      omega
    have hhi : (0 : Int) ≤ endT - startT - ((n : Int) - 1) * spacing := by omega
    obtain ⟨hr1, hr2⟩ :=
      randint_bounds 0 (endT - startT - ((n : Int) - 1) * spacing) (rs 0) hhi
    set first := startT + randint 0 (endT - startT - ((n : Int) - 1) * spacing)
        (rs 0) with hfirst
    have hfirstLo : startT ≤ first := by omega
    have hfirstHi : first ≤ endT := by omega
    obtain ⟨hchain, hmem, hlength⟩ :=
      genLoop_spec endT spacing n rs hsp (n - 1) 1 first (by omega)
    have hunf : genSlots startT endT spacing n rs =
        first :: genLoop endT spacing n rs (n - 1) 1 first := by
      simp [genSlots, hguard, hfirst]
    refine ⟨?_, ?_, ?_, ?_⟩
    · rw [hunf]; exact hchain
    · rw [hunf]
      simp only [allInWindow, List.all_cons, List.all_eq_true, Bool.and_eq_true,
        decide_eq_true_eq]
      refine ⟨⟨hfirstLo, hfirstHi⟩, ?_⟩
      intro x hx
      obtain ⟨h1, h2⟩ := hmem x hx
      exact ⟨by omega, h2⟩
    · rw [hunf]
      simp only [List.length_cons]
      omega
    · intro _
      rw [hunf]
      exact List.cons_ne_nil _ _

/-- Witness for `generate_time_slots_valid` at the source's concrete
configuration: window 09:00–21:00 in seconds, 10-minute spacing, count range
(1,3), drawn count 3, and a concrete draw oracle. -/
theorem generate_time_slots_valid_witness :
    ((32400 : Int) < 75600 ∧ (0 : Int) ≤ 600 ∧ 1 ≤ 1 ∧ 1 ≤ 3 ∧ 1 ≤ 3 ∧ 3 ≤ 3) ∧
    (chainSpaced 600 (genSlots 32400 75600 600 3 (fun i => 37 * i)) = true ∧
     allInWindow 32400 75600 (genSlots 32400 75600 600 3 (fun i => 37 * i)) = true ∧
     (genSlots 32400 75600 600 3 (fun i => 37 * i)).length ≤ 3 ∧
     (((3 : Int) - 1) * 600 ≤ 75600 - 32400 →
       genSlots 32400 75600 600 3 (fun i => 37 * i) ≠ [])) :=
  ⟨by norm_num,
   generate_time_slots_valid 32400 75600 600 1 3 3 (fun i => 37 * i)
     (by norm_num) (by norm_num) (by norm_num) (by norm_num) (by norm_num)
     (by norm_num)⟩

/-- C8 counterexample: on a zero-width window (start = end = 0) with drawn
count `n = 1`, `_generate_time_slots` returns a one-element sequence, not the
empty sequence the claim requires for a zero-width window. -/
theorem zero_width_window_not_empty :
    genSlots 0 0 600 1 (fun _ => 0) = [0] ∧
    ¬ genSlots 0 0 600 1 (fun _ => 0) = [] := by
  constructor
  · rfl
  · decide

/-- C8 amended: a drawn count of `n = 1` yields exactly one slot whenever the
window width is non-negative — including the zero-width window — while a
zero-width window yields the empty sequence exactly for drawn counts
`n ≥ 2` (whose spacing requirement exceeds the zero width). -/
theorem single_count_and_zero_width (startT endT spacing : Int) (n : Nat)
    (rs rs' : Nat → Nat) (hw : startT ≤ endT) (hn : 2 ≤ n) (hsp : 0 < spacing) :
    (genSlots startT endT spacing 1 rs).length = 1 ∧
    genSlots startT startT spacing n rs' = [] := by
  constructor
  · have h0 : ((((1 : Nat) : Int)) - 1) * spacing = 0 := by norm_num
    have hguard : ¬ (endT - startT < ((((1 : Nat) : Int)) - 1) * spacing) := by
      rw [h0]
      omega
    simp [genSlots, hguard, genLoop, not_lt.mpr hw]
  · have hpos : 0 < ((n : Int) - 1) * spacing := by
      apply mul_pos _ hsp
      have h2 : (2 : Int) ≤ (n : Int) := by exact_mod_cast hn
      omega
    simp [genSlots]
    exact hpos

/-- Witness for `single_count_and_zero_width` at a concrete window and count. -/
theorem single_count_and_zero_width_witness :
    ((0 : Int) ≤ 100 ∧ 2 ≤ 2 ∧ (0 : Int) < 600) ∧
    ((genSlots 0 100 600 1 (fun _ => 5)).length = 1 ∧
     genSlots 0 0 600 2 (fun _ => 5) = []) :=
  ⟨by norm_num,
   single_count_and_zero_width 0 100 600 2 (fun _ => 5) (fun _ => 5)
     (by norm_num) (by norm_num) (by norm_num)⟩

/-! ## Scheduler timer model (June `_schedule_daily_jobs` variants)

The `schedule` library keeps a global registry of jobs; `schedule.every().day
.at(..).do(f)` appends a recurring job and `schedule.cancel_job(j)` removes it
(a no-op when the job is absent).  The registry is modelled as a list of
(id, tag) pairs with a fresh-id counter. -/

/-- Tag of an armed job: a per-slot sync job (`.do(self._execute_work)` at a
slot time), the midnight rollover job (`.at("00:00").do(self._schedule_daily_jobs)`),
or the one-minute bootstrap job (`.do(self._execute_initial_task)`). -/
inductive JobTag
  | slot (t : Int)
  | rollover
  | bootstrap
deriving DecidableEq, Repr

/-- The `schedule` library's registry of armed jobs. -/
structure Sched where
  jobs : List (Nat × JobTag)
  nextId : Nat
deriving DecidableEq, Repr

def Sched.initial : Sched := ⟨[], 0⟩

/-- Embeds `schedule.every().day.at(..).do(..)`: arm a job, returning its id. -/
def armJob (s : Sched) (tag : JobTag) : Sched × Nat :=
  (⟨s.jobs ++ [(s.nextId, tag)], s.nextId + 1⟩, s.nextId)

/-- Embeds `schedule.cancel_job(job)`: removing an absent job is a no-op. -/
def cancelJob (s : Sched) (id : Nat) : Sched :=
  ⟨s.jobs.filter (fun j => !(j.1 == id)), s.nextId⟩

/-- Scheduler-instance state: the registry plus `self._scheduled_jobs`,
the list of job ids the instance tracks for cancellation. -/
structure DayState where
  sched : Sched
  tracked : List Nat
deriving DecidableEq, Repr

def DayState.initial : DayState := ⟨Sched.initial, []⟩

/-- Embeds `DailyRandomScheduler._schedule_daily_jobs` of
src/June/DailyRandomScheduler.py, with the generated `time_slots` passed in
(the generation itself is `genSlots`): cancel and clear the tracked jobs; if
no slots were generated, stop; otherwise arm one slot job per slot (tracking
each) and arm a fresh midnight rollover job (never tracked). -/
def scheduleDailyJobs (slots : List Int) (st : DayState) : DayState :=
  let s1 := st.tracked.foldl cancelJob st.sched
  if slots.isEmpty then ⟨s1, []⟩
  else
    let armed := slots.foldl
      (fun (acc : Sched × List Nat) t =>
        let (s, id) := armJob acc.1 (.slot t)
        (s, acc.2 ++ [id]))
      (s1, [])
    let s3 := (armJob armed.1 .rollover).1
    ⟨s3, armed.2⟩

/-- Embeds `_is_weekend` of src/June/WeekendAutoPushScheduler.py:
`dt.weekday() in (5, 6)`. -/
def isWeekend (weekday : Nat) : Bool :=
  weekday == 5 || weekday == 6

/-- Embeds `DailyRandomScheduler._schedule_daily_jobs` of
src/June/WeekendAutoPushScheduler.py: on a non-weekend day it cancels and
clears the tracked jobs and returns — arming nothing; on a weekend day its
body is identical to the daily variant. -/
def scheduleWeekendJobs (weekday : Nat) (slots : List Int) (st : DayState) :
    DayState :=
  if !isWeekend weekday then
    ⟨st.tracked.foldl cancelJob st.sched, []⟩
  else
    scheduleDailyJobs slots st

/-- Number of armed midnight rollover jobs in the registry. -/
def rolloverCount (s : Sched) : Nat :=
  (s.jobs.filter fun j =>
    match j.2 with
    | JobTag.rollover => true
    | _ => false).length

/-- Slot tags of the armed slot jobs, in arming order. -/
def armedSlotTimes (s : Sched) : List Int :=
  s.jobs.filterMap fun j =>
    match j.2 with
    | JobTag.slot t => some t
    | _ => none

/-- C6: regenerating twice in succession from a fresh scheduler (first
generation slots 100 and 200, second generation slot 300) leaves exactly the
second generation's slot jobs armed, but leaves TWO armed midnight rollover
jobs — each regeneration arms a fresh rollover job and never cancels the old
one, violating the at-most-one-rollover invariant. -/
theorem rollover_timer_duplicated :
    armedSlotTimes (scheduleDailyJobs [300]
      (scheduleDailyJobs [100, 200] DayState.initial)).sched = [300] ∧
    rolloverCount (scheduleDailyJobs [300]
      (scheduleDailyJobs [100, 200] DayState.initial)).sched = 2 := by
  constructor
  · rfl
  · rfl

/-- C7: when the weekend variant regenerates on an ineligible day (weekday 0,
a Monday) with one residual armed slot job, it cancels the residual job and
returns without arming anything: the registry is left empty — in particular no
midnight rollover job is armed, so nothing guarantees regeneration at the next
midnight. -/
theorem weekday_regeneration_arms_nothing :
    isWeekend 0 = false ∧
    (scheduleWeekendJobs 0 [999]
      ⟨⟨[(0, JobTag.slot 100)], 1⟩, [0]⟩).sched.jobs = [] ∧
    rolloverCount (scheduleWeekendJobs 0 [999]
      ⟨⟨[(0, JobTag.slot 100)], 1⟩, [0]⟩).sched = 0 := by
  refine ⟨rfl, rfl, rfl⟩

/-! ## Git command runner and the June sync engine (src/June/AutoPushGitHub.py)

A git invocation's observable outcome is one of: success with captured stdout,
`CalledProcessError` with captured stderr, `TimeoutExpired`,
`UnicodeDecodeError`, or any other exception.  `_run_git_command` maps these
to `Optional[str]`; note that on success it returns `result.stdout or None`,
so an empty stdout becomes `None`, and in the `UnicodeDecodeError` handler the
access `e.output` raises `AttributeError` (the exception has no such
attribute), which the inner bare `except` turns into `None`. -/

inductive CmdResult
  | success (stdout : String)
  | calledError (stderr : String)
  | timedOut
  | decodeError
  | otherError
deriving DecidableEq, Repr

/-- Embeds `GitAutoPusher._run_git_command`'s result mapping. -/
def runGitCommand : CmdResult → Option String
  | .success s => if s = "" then none else some s
  | .calledError _ => none
  | .timedOut => none
  | .decodeError => none
  | .otherError => none

/-- The git commands the two engines issue, identified by shape. -/
inductive GitCmd
  | remoteV
  | resetStashPull
  | statusPorcelain
  | lsFilesDeleted
  | rmCached (f : String)
  | addAll
  | addDot
  | commit (msg : String)
  | revParse
  | statusSb
  | pushPlain (branch : String)
  | pushUpstream (branch : String)
  | pullMain
deriving DecidableEq, Repr

/-- State threaded through a run: how many git commands were issued so far
(the oracle index) and the ordered trace of issued commands. -/
structure St where
  idx : Nat
  trace : List GitCmd
deriving DecidableEq, Repr

def St.start : St := ⟨0, []⟩

/-- Issue one git command: consult the oracle at the current index, append the
command to the trace. -/
def step (git : Nat → CmdResult) (c : GitCmd) (st : St) : Option String × St :=
  (runGitCommand (git st.idx), ⟨st.idx + 1, st.trace ++ [c]⟩)

/-- Model of Python `str.strip()`: drop whitespace from both ends. -/
def pyStrip (s : String) : String :=
  (((s.data.dropWhile Char.isWhitespace).reverse.dropWhile
      Char.isWhitespace).reverse).asString

/-- Model of Python `str.split('\n')`: split at every newline, keeping empty
pieces. -/
def splitNl : List Char → List String
  | [] => [""]
  | c :: rest =>
      if c = '\n' then "" :: splitNl rest
      else
        match splitNl rest with
        | [] => [String.mk [c]]
        | h :: t => String.mk (c :: h.data) :: t

/-- Character-list substring test used to model Python's `pat in s`. -/
def charsHaveSub (pat : List Char) : List Char → Bool
  | [] => pat.isEmpty
  | l@(_ :: rest) => pat.isPrefixOf l || charsHaveSub pat rest

/-- Model of Python `pat in s` on strings. -/
def hasSub (s pat : String) : Bool := charsHaveSub pat.data s.data

/-- Embeds `GitAutoPusher._handle_deleted_files`: list deleted files; when the
listing yields output, `git rm --cached` each line of the stripped output. -/
def handleDeletedFiles (git : Nat → CmdResult) (st : St) : St :=
  let r := step git .lsFilesDeleted st
  match r.1 with
  | none => r.2
  | some s =>
      (splitNl (pyStrip s).data).foldl
        (fun acc f => (step git (.rmCached f) acc).2) r.2

/-- Embeds `GitAutoPusher._needs_upstream`: `git status -sb` reports
`[no upstream branch]`. -/
def needsUpstream (git : Nat → CmdResult) (st : St) : Bool × St :=
  let r := step git .statusSb st
  (match r.1 with
   | some s => hasSub s "[no upstream branch]"
   | none => false,
   r.2)

/-- Embeds `GitAutoPusher._get_current_branch`: `git rev-parse --abbrev-ref
HEAD`, stripped. -/
def getCurrentBranch (git : Nat → CmdResult) (st : St) : Option String × St :=
  let r := step git .revParse st
  (r.1.map pyStrip, r.2)

/-- Embeds `GitAutoPusher._attempt_push`: plain push; on failure, if the
branch lacks an upstream, one `push -u` and stop; otherwise one pull of main
followed by one plain-push retry. -/
def attemptPush (git : Nat → CmdResult) (branch : String) (st : St) : St :=
  let p1 := step git (.pushPlain branch) st
  match p1.1 with
  | some _ => p1.2
  | none =>
      let nu := needsUpstream git p1.2
      if nu.1 then (step git (.pushUpstream branch) nu.2).2
      else
        let st3 := (step git .pullMain nu.2).2
        (step git (.pushPlain branch) st3).2

/-- The June engine's environment: path validation results, SSH probe result,
timestamp-file creation result, the timestamp text, and the git oracle. -/
structure JuneEnv where
  pathExists : Bool
  gitDirExists : Bool
  sshOk : Bool
  fileCreateOk : Bool
  now : String
  git : Nat → CmdResult

/-- Embeds `GitAutoPusher.execute_push_flow`: SSH preflight, timestamp file,
forced converge (fatal on failure), deleted-file handling, `git add .`,
commit, branch resolution, then `_attempt_push` — whose outcome is discarded:
the flow then returns `(True, "推送结束")` unconditionally. -/
def executePushFlow (env : JuneEnv) : (Bool × String) × St :=
  if !env.sshOk then ((false, "SSH连接失败"), St.start)
  else if !env.fileCreateOk then ((false, "文件创建失败"), St.start)
  else
    let pull := step env.git .resetStashPull St.start
    match pull.1 with
    | none => ((false, "代码拉取失败"), pull.2)
    | some _ =>
        let st2 := handleDeletedFiles env.git pull.2
        let st3 := (step env.git .addAll st2).2
        let c := step env.git (.commit ("自动提交于 " ++ env.now)) st3
        match c.1 with
        | none => ((false, "提交失败"), c.2)
        | some _ =>
            let b := getCurrentBranch env.git c.2
            match b.1 with
            | none => ((false, "分支获取失败"), b.2)
            | some branch =>
                ((true, "推送结束"), attemptPush env.git branch b.2)

/-- Reason a `ValueError` is raised by `GitAutoPusher._validate_path`. -/
inductive PathErr
  | missing
  | notARepo
deriving DecidableEq, Repr

/-- Outcome of the June module's `auto_push` entry point. -/
inductive AutoPushResult
  | invalidPath (e : PathErr)
  | completed (ok : Bool) (msg : String)
deriving DecidableEq, Repr

/-- Embeds the June `auto_push`: construction validates the repository path
(raising `ValueError`, caught and logged, before any git command), then runs
`execute_push_flow`. -/
def autoPushJune (env : JuneEnv) : AutoPushResult × List GitCmd :=
  if !env.pathExists then (.invalidPath .missing, [])
  else if !env.gitDirExists then (.invalidPath .notARepo, [])
  else
    let r := executePushFlow env
    (.completed r.1.1 r.1.2, r.2.trace)

/-- A backend on which both the plain push and the pull-then-retry push fail;
all earlier steps succeed, and `git status -sb` shows a configured upstream. -/
def envAllPushesFail : JuneEnv :=
  { pathExists := true
    gitDirExists := true
    sshOk := true
    fileCreateOk := true
    now := "2025-06-01 10:00:00"
    git := fun i =>
      match i with
      | 0 => .success "Already up to date."
      | 1 => .success ""
      | 2 => .success ""
      | 3 => .success "1 file changed"
      | 4 => .success "main"
      | 5 => .calledError "rejected"
      | 6 => .success "## main...origin/main"
      | 7 => .calledError "conflict"
      | _ => .calledError "rejected" }

/-- C1 (code bug): on a run that reaches the push step and whose every push
attempt fails, `execute_push_flow` still returns the success outcome
`(True, "推送结束")` — `_attempt_push` discards all push results, so no Push
failure outcome carrying the last error detail exists, contradicting the
claim and the function's own docstring (`:return: (是否成功, 结果描述)`). -/
theorem push_flow_reports_success_after_total_push_failure :
    executePushFlow envAllPushesFail =
      ((true, "推送结束"),
       ⟨9, [GitCmd.resetStashPull, GitCmd.lsFilesDeleted, GitCmd.addAll,
            GitCmd.commit "自动提交于 2025-06-01 10:00:00", GitCmd.revParse,
            GitCmd.pushPlain "main", GitCmd.statusSb, GitCmd.pullMain,
            GitCmd.pushPlain "main"]⟩) ∧
    runGitCommand (envAllPushesFail.git 5) = none ∧
    runGitCommand (envAllPushesFail.git 8) = none := by
  refine ⟨by decide, rfl, rfl⟩

/-- C9: whenever the preflight checks fail — repository path missing, path
not a working copy, or the SSH probe failing — the June run ends with the
corresponding preflight outcome and issues zero git commands. -/
theorem preflight_failure_issues_no_git_commands (env : JuneEnv)
    (h : env.pathExists = false ∨ env.gitDirExists = false ∨
      env.sshOk = false) :
    (autoPushJune env).2 = [] ∧
    ((autoPushJune env).1 = .invalidPath .missing ∨
     (autoPushJune env).1 = .invalidPath .notARepo ∨
     (autoPushJune env).1 = .completed false "SSH连接失败") := by
  cases hPE : env.pathExists <;> cases hGD : env.gitDirExists <;>
    cases hSSH : env.sshOk <;>
      simp [autoPushJune, executePushFlow, St.start, hPE, hGD, hSSH] <;>
        simp [hPE, hGD, hSSH] at h

/-- An environment whose SSH probe fails while the path checks succeed. -/
def envSshFails : JuneEnv :=
  { pathExists := true
    gitDirExists := true
    sshOk := false
    fileCreateOk := true
    now := "t"
    git := fun _ => .otherError }

/-- Witness for `preflight_failure_issues_no_git_commands` on a concrete
environment whose SSH probe fails. -/
theorem preflight_failure_issues_no_git_commands_witness :
    (envSshFails.pathExists = false ∨ envSshFails.gitDirExists = false ∨
      envSshFails.sshOk = false) ∧
    ((autoPushJune envSshFails).2 = [] ∧
     ((autoPushJune envSshFails).1 = .invalidPath .missing ∨
      (autoPushJune envSshFails).1 = .invalidPath .notARepo ∨
      (autoPushJune envSshFails).1 = .completed false "SSH连接失败")) :=
  ⟨Or.inr (Or.inr rfl),
   preflight_failure_issues_no_git_commands envSshFails
     (Or.inr (Or.inr rfl))⟩

def CmdResult.isSuccess : CmdResult → Bool
  | .success _ => true
  | _ => false

def CmdResult.stdoutStr : CmdResult → String
  | .success s => s
  | _ => ""

/-- C10: `_run_git_command` yields `None` exactly when the command failed
(non-zero exit, timeout, decode error, or any other exception) or succeeded
with empty stdout — it is a total function, never letting an exception
escape — and consequently the push fallback chain treats a plain push that
succeeded with empty stdout as a failed push: the very next command it issues
is the upstream probe `git status -sb` of the fallback tiers. -/
theorem run_git_command_none_iff :
    (∀ r : CmdResult,
      runGitCommand r = none ↔ (r.isSuccess = false ∨ r.stdoutStr = "")) ∧
    (∀ (git : Nat → CmdResult) (branch : String),
      git 0 = .success "" →
      (attemptPush git branch St.start).trace.take 2 =
        [GitCmd.pushPlain branch, GitCmd.statusSb]) := by
  constructor
  · intro r
    cases r with
    | success s =>
        by_cases hs : s = "" <;>
          simp [runGitCommand, CmdResult.isSuccess, CmdResult.stdoutStr, hs]
    | calledError e =>
        simp [runGitCommand, CmdResult.isSuccess, CmdResult.stdoutStr]
    | timedOut =>
        simp [runGitCommand, CmdResult.isSuccess, CmdResult.stdoutStr]
    | decodeError =>
        simp [runGitCommand, CmdResult.isSuccess, CmdResult.stdoutStr]
    | otherError =>
        simp [runGitCommand, CmdResult.isSuccess, CmdResult.stdoutStr]
  · intro git branch h0
    unfold attemptPush
    simp only [step, St.start, h0, runGitCommand, if_pos rfl]
    cases h1 : runGitCommand (git 1) with
    | none =>
        simp [needsUpstream, step, h1]
    | some s =>
        by_cases hn : hasSub s "[no upstream branch]" <;>
          simp [needsUpstream, step, h1, hn]

/-- Witness for `run_git_command_none_iff`: a backend whose every command
"succeeds" with empty stdout forces the fallback tiers after the plain push. -/
theorem run_git_command_none_iff_witness :
    (fun (_ : Nat) => CmdResult.success "") 0 = CmdResult.success "" ∧
    (attemptPush (fun _ => CmdResult.success "") "main" St.start).trace.take 2 =
      [GitCmd.pushPlain "main", GitCmd.statusSb] :=
  ⟨rfl, run_git_command_none_iff.2 (fun _ => CmdResult.success "") "main" rfl⟩

/-- A backend whose converge command (`git reset --hard HEAD && git stash
clear && git pull --force origin main`) fails; SSH and file creation succeed. -/
def envConvergeFails : JuneEnv :=
  { pathExists := true
    gitDirExists := true
    sshOk := true
    fileCreateOk := true
    now := "2025-06-01 10:00:00"
    git := fun _ => .calledError "fatal: unable to access remote" }

/-- C2 counterexample: in the June engine a Converge failure is fatal — the
run returns the pull-failure outcome `(False, "代码拉取失败")` after issuing
only the converge command, never reaching the staging step (`git add .`),
contrary to the claim that Converge failures are non-fatal for the run. -/
theorem converge_failure_fatal_in_june :
    executePushFlow envConvergeFails =
      ((false, "代码拉取失败"), ⟨1, [GitCmd.resetStashPull]⟩) ∧
    GitCmd.addAll ∉ (executePushFlow envConvergeFails).2.trace := by
  refine ⟨by decide, by decide⟩

/-- A backend for `_attempt_push` alone: the plain push is rejected, `git
status -sb` reports `[no upstream branch]`, and the upstream-setting push is
rejected as well. -/
def gitUpstreamPushFails : Nat → CmdResult :=
  fun i =>
    match i with
    | 0 => .calledError "rejected"
    | 1 => .success "## main...origin/main [no upstream branch]"
    | 2 => .calledError "rejected again"
    | _ => .success "ok"

/-- C5 counterexample: in the June engine, when the plain push fails, the
branch lacks an upstream and the upstream-setting push also fails, the
fallback chain stops — the trace is exactly plain push, upstream probe,
upstream push: no pull of main and no plain-push retry follow the failed
`git push -u`, contrary to the claim. -/
theorem failed_upstream_push_not_retried_in_june :
    (attemptPush gitUpstreamPushFails "main" St.start).trace =
      [GitCmd.pushPlain "main", GitCmd.statusSb, GitCmd.pushUpstream "main"] ∧
    GitCmd.pullMain ∉ (attemptPush gitUpstreamPushFails "main" St.start).trace ∧
    runGitCommand (gitUpstreamPushFails 2) = none := by
  refine ⟨by decide, by decide, rfl⟩

/-! ## The May sync engine (src/May/AutoPushGitHub.py)

May's `run_git_command` returns `result.stdout or result` on success: a
successful command with empty stdout yields the `CompletedProcess` object,
which is truthy.  Python operations that assume a string (`in`, `.strip()`)
raise `TypeError`/`AttributeError` on that object; such an exception escapes
`auto_push` (modelled as the `pyError` outcome). -/

/-- Value of May's `run_git_command`: captured stdout, the truthy
`CompletedProcess` object (success with empty stdout), or `None`. -/
inductive MayRet
  | out (s : String)
  | proc
  | nil
deriving DecidableEq, Repr

/-- Embeds May's `run_git_command` result mapping (`result.stdout or result`
on success, `None` on every handled exception). -/
def runGitMay : CmdResult → MayRet
  | .success s => if s = "" then .proc else .out s
  | .calledError _ => .nil
  | .timedOut => .nil
  | .decodeError => .nil
  | .otherError => .nil

/-- Python truthiness of a May runner value. -/
def MayRet.truthy : MayRet → Bool
  | .nil => false
  | _ => true

/-- Issue one git command in the May engine. -/
def mstep (git : Nat → CmdResult) (c : GitCmd) (st : St) : MayRet × St :=
  (runGitMay (git st.idx), ⟨st.idx + 1, st.trace ++ [c]⟩)

/-- Terminal outcome of one May `auto_push()` run, one constructor per
distinct exit point or final log message of the source. -/
inductive MayOutcome
  | pathMissing
  | remoteInfoFail
  | notSshRemote
  | sshFail
  | notARepo
  | pyError
  | fileCreateError
  | noChanges
  | branchFail
  | pushedPlain
  | pushedUpstream
  | pushedAfterPull
  | pushFailed
deriving DecidableEq, Repr

/-- Embeds May's `needs_upstream_setting`: `status and "[no upstream branch]"
in status`; on a truthy `CompletedProcess` the `in` raises `TypeError`. -/
def mayNeedsUpstream (git : Nat → CmdResult) (st : St) :
    Except Unit Bool × St :=
  let r := mstep git .statusSb st
  (match r.1 with
   | .nil => .ok false
   | .proc => .error ()
   | .out s => .ok (hasSub s "[no upstream branch]"),
   r.2)

/-- Embeds May's `get_current_branch`; on a truthy `CompletedProcess` the
`.strip()` raises `AttributeError`. -/
def mayGetBranch (git : Nat → CmdResult) (st : St) :
    Except Unit (Option String) × St :=
  let r := mstep git .revParse st
  (match r.1 with
   | .nil => .ok none
   | .proc => .error ()
   | .out s => .ok (some (pyStrip s)),
   r.2)

/-- Embeds May's push fallback: plain push; on failure, if the branch lacks
an upstream, `push -u`, and if that also fails, pull main and retry the plain
push once; with an upstream, pull main and retry directly. -/
def mayPushChain (git : Nat → CmdResult) (branch : String) (st : St) :
    MayOutcome × St :=
  let p1 := mstep git (.pushPlain branch) st
  if p1.1.truthy then (.pushedPlain, p1.2)
  else
    let nu := mayNeedsUpstream git p1.2
    match nu.1 with
    | .error _ => (.pyError, nu.2)
    | .ok true =>
        let p2 := mstep git (.pushUpstream branch) nu.2
        if p2.1.truthy then (.pushedUpstream, p2.2)
        else
          let st3 := (mstep git .pullMain p2.2).2
          let p3 := mstep git (.pushPlain branch) st3
          if p3.1.truthy then (.pushedAfterPull, p3.2)
          else (.pushFailed, p3.2)
    | .ok false =>
        let st3 := (mstep git .pullMain nu.2).2
        let p3 := mstep git (.pushPlain branch) st3
        if p3.1.truthy then (.pushedAfterPull, p3.2)
        else (.pushFailed, p3.2)

/-- Embeds the May run from `git add.` onward: stage, commit (result
ignored), resolve the branch, then the push fallback chain. -/
def mayAfterStatus (git : Nat → CmdResult) (now : String) (st : St) :
    MayOutcome × St :=
  let st1 := (mstep git .addDot st).2
  let st2 := (mstep git (.commit ("自动提交于 " ++ now)) st1).2
  let b := mayGetBranch git st2
  match b.1 with
  | .error _ => (.pyError, b.2)
  | .ok none => (.branchFail, b.2)
  | .ok (some branch) => mayPushChain git branch b.2

/-- The May engine's environment. -/
structure MayEnv where
  pathExists : Bool
  sshOk : Bool
  gitDirExists : Bool
  fileCreateOk : Bool
  now : String
  git : Nat → CmdResult

/-- Embeds May's `auto_push`: path check, `git remote -v` plus SSH-protocol
check, SSH probe, `.git` check, forced converge (result ignored), timestamp
file, `git status --porcelain` short-circuit, then `mayAfterStatus`. -/
def autoPushMayS (env : MayEnv) : MayOutcome × St :=
  if !env.pathExists then (.pathMissing, St.start)
  else
    let r0 := mstep env.git .remoteV St.start
    match r0.1 with
    | .nil => (.remoteInfoFail, r0.2)
    | .proc => (.pyError, r0.2)
    | .out s =>
        if !hasSub s "git@github.com" then (.notSshRemote, r0.2)
        else if !env.sshOk then (.sshFail, r0.2)
        else if !env.gitDirExists then (.notARepo, r0.2)
        else
          let st1 := (mstep env.git .resetStashPull r0.2).2
          if !env.fileCreateOk then (.fileCreateError, st1)
          else
            let sres := mstep env.git .statusPorcelain st1
            if !sres.1.truthy then (.noChanges, sres.2)
            else mayAfterStatus env.git env.now sres.2

/-- May `auto_push` with the issued git-command trace projected out. -/
def autoPushMay (env : MayEnv) : MayOutcome × List GitCmd :=
  ((autoPushMayS env).1, (autoPushMayS env).2.trace)

theorem mayPushChain_trace (git : Nat → CmdResult) (branch : String)
    (st : St) :
    ∃ ext, (mayPushChain git branch st).2.trace = st.trace ++ ext := by
  unfold mayPushChain mayNeedsUpstream mstep
  cases hg0 : runGitMay (git st.idx) with
  | out s => exact ⟨[GitCmd.pushPlain branch], by simp [MayRet.truthy, hg0]⟩
  | proc => exact ⟨[GitCmd.pushPlain branch], by simp [MayRet.truthy, hg0]⟩
  | nil =>
      cases hg1 : runGitMay (git (st.idx + 1)) with
      | proc =>
          exact ⟨[GitCmd.pushPlain branch, GitCmd.statusSb],
            by simp [MayRet.truthy, hg0, hg1]⟩
      | nil =>
          refine ⟨[GitCmd.pushPlain branch, GitCmd.statusSb, GitCmd.pullMain,
            GitCmd.pushPlain branch], ?_⟩
          cases hg3 : runGitMay (git (st.idx + 1 + 1 + 1)) <;>
            simp [MayRet.truthy, hg0, hg1, hg3]
      | out s =>
          cases hsub : hasSub s "[no upstream branch]" with
          | false =>
              refine ⟨[GitCmd.pushPlain branch, GitCmd.statusSb,
                GitCmd.pullMain, GitCmd.pushPlain branch], ?_⟩
              cases hg3 : runGitMay (git (st.idx + 1 + 1 + 1)) <;>
                simp [MayRet.truthy, hg0, hg1, hsub, hg3]
          | true =>
              cases hg2 : runGitMay (git (st.idx + 1 + 1)) with
              | out u =>
                  exact ⟨[GitCmd.pushPlain branch, GitCmd.statusSb,
                    GitCmd.pushUpstream branch],
                    by simp [MayRet.truthy, hg0, hg1, hsub, hg2]⟩
              | proc =>
                  exact ⟨[GitCmd.pushPlain branch, GitCmd.statusSb,
                    GitCmd.pushUpstream branch],
                    by simp [MayRet.truthy, hg0, hg1, hsub, hg2]⟩
              | nil =>
                  refine ⟨[GitCmd.pushPlain branch, GitCmd.statusSb,
                    GitCmd.pushUpstream branch, GitCmd.pullMain,
                    GitCmd.pushPlain branch], ?_⟩
                  cases hg4 : runGitMay (git (st.idx + 1 + 1 + 1 + 1)) <;>
                    simp [MayRet.truthy, hg0, hg1, hsub, hg2, hg4]

theorem mayAfterStatus_trace (git : Nat → CmdResult) (now : String) (st : St) :
    ∃ ext, (mayAfterStatus git now st).2.trace =
      st.trace ++ GitCmd.addDot ::
        GitCmd.commit ("自动提交于 " ++ now) :: GitCmd.revParse :: ext := by
  unfold mayAfterStatus mayGetBranch mstep
  cases hb : runGitMay (git (st.idx + 1 + 1)) with
  | proc => exact ⟨[], by simp [hb]⟩
  | nil => exact ⟨[], by simp [hb]⟩
  | out s =>
      obtain ⟨ext, hext⟩ := mayPushChain_trace git (pyStrip s)
        ⟨st.idx + 1 + 1 + 1,
          ((st.trace ++ [GitCmd.addDot]) ++
            [GitCmd.commit ("自动提交于 " ++ now)]) ++ [GitCmd.revParse]⟩
      refine ⟨ext, ?_⟩
      simp only [hb]
      exact hext.trans (by simp)

/-- C2 amended: the two engines disagree on Converge failures.  In the May
engine the converge result is discarded: even when the forced
reset/stash-clear/force-pull fails, the run proceeds to the status check, and
whenever the status command returns a value it proceeds into staging
(`git add.`).  In the June engine a Converge failure is fatal: the run
returns `(False, "代码拉取失败")` immediately after the converge command and
issues no further git commands. -/
theorem converge_failure_nonfatal_may_fatal_june :
    (∀ (menv : MayEnv) (s : String),
      menv.pathExists = true → menv.git 0 = .success s → s ≠ "" →
      hasSub s "git@github.com" = true → menv.sshOk = true →
      menv.gitDirExists = true → menv.fileCreateOk = true →
      runGitMay (menv.git 1) = .nil →
      GitCmd.statusPorcelain ∈ (autoPushMay menv).2 ∧
      (∀ t, menv.git 2 = .success t → GitCmd.addDot ∈ (autoPushMay menv).2)) ∧
    (∀ env : JuneEnv,
      env.sshOk = true → env.fileCreateOk = true →
      runGitCommand (env.git 0) = none →
      (executePushFlow env).1 = (false, "代码拉取失败") ∧
      (executePushFlow env).2.trace = [GitCmd.resetStashPull]) := by
  constructor
  · intro menv s hpath h0 hs hsub hssh hgd hfc _hconv
    have hout : runGitMay (menv.git 0) = .out s := by
      simp [h0, runGitMay, hs]
    have hmemS : GitCmd.statusPorcelain ∈
        (mayAfterStatus menv.git menv.now
          ⟨0 + 1 + 1 + 1, [GitCmd.remoteV, GitCmd.resetStashPull,
            GitCmd.statusPorcelain]⟩).2.trace := by
      obtain ⟨ext, hext⟩ := mayAfterStatus_trace menv.git menv.now
        ⟨0 + 1 + 1 + 1, [GitCmd.remoteV, GitCmd.resetStashPull,
          GitCmd.statusPorcelain]⟩
      rw [hext]
      simp
    have hmemA : GitCmd.addDot ∈
        (mayAfterStatus menv.git menv.now
          ⟨0 + 1 + 1 + 1, [GitCmd.remoteV, GitCmd.resetStashPull,
            GitCmd.statusPorcelain]⟩).2.trace := by
      obtain ⟨ext, hext⟩ := mayAfterStatus_trace menv.git menv.now
        ⟨0 + 1 + 1 + 1, [GitCmd.remoteV, GitCmd.resetStashPull,
          GitCmd.statusPorcelain]⟩
      rw [hext]
      simp
    constructor
    · unfold autoPushMay autoPushMayS mstep St.start
      cases hg2 : runGitMay (menv.git (0 + 1 + 1)) with
      | nil => simp [hpath, hout, hsub, hssh, hgd, hfc, hg2, MayRet.truthy]
      | proc =>
          simpa [hpath, hout, hsub, hssh, hgd, hfc, hg2, MayRet.truthy]
            using hmemS
      | out t =>
          simpa [hpath, hout, hsub, hssh, hgd, hfc, hg2, MayRet.truthy]
            using hmemS
    · intro t h2
      have htr : (runGitMay (menv.git (0 + 1 + 1))).truthy = true := by
        by_cases ht : t = "" <;> simp [h2, runGitMay, ht, MayRet.truthy]
      unfold autoPushMay autoPushMayS mstep St.start
      simpa [hpath, hout, hsub, hssh, hgd, hfc, htr] using hmemA
  · intro env hssh hfc h0
    unfold executePushFlow step St.start
    simp [hssh, hfc, h0]

/-- A concrete May environment whose converge command fails while everything
before it succeeds; the status command then reports changes. -/
def envMayConvergeFails : MayEnv :=
  { pathExists := true
    sshOk := true
    gitDirExists := true
    fileCreateOk := true
    now := "T"
    git := fun i =>
      match i with
      | 0 => .success "origin\tgit@github.com:o/r.git (push)"
      | 1 => .calledError "fatal: could not read from remote repository"
      | 2 => .success "?? x.txt"
      | _ => .success "ok" }

/-- Witness for `converge_failure_nonfatal_may_fatal_june` on concrete
environments: a May run whose converge fails and a June run whose converge
fails. -/
theorem converge_failure_nonfatal_may_fatal_june_witness :
    (envMayConvergeFails.pathExists = true ∧
     envMayConvergeFails.git 0 =
       .success "origin\tgit@github.com:o/r.git (push)" ∧
     "origin\tgit@github.com:o/r.git (push)" ≠ "" ∧
     hasSub "origin\tgit@github.com:o/r.git (push)" "git@github.com" = true ∧
     envMayConvergeFails.sshOk = true ∧
     envMayConvergeFails.gitDirExists = true ∧
     envMayConvergeFails.fileCreateOk = true ∧
     runGitMay (envMayConvergeFails.git 1) = .nil ∧
     envConvergeFails.sshOk = true ∧
     envConvergeFails.fileCreateOk = true ∧
     runGitCommand (envConvergeFails.git 0) = none) ∧
    (GitCmd.statusPorcelain ∈ (autoPushMay envMayConvergeFails).2 ∧
     GitCmd.addDot ∈ (autoPushMay envMayConvergeFails).2 ∧
     (executePushFlow envConvergeFails).1 = (false, "代码拉取失败") ∧
     (executePushFlow envConvergeFails).2.trace = [GitCmd.resetStashPull]) := by
  refine ⟨⟨rfl, rfl, by decide, by decide, rfl, rfl, rfl, rfl, rfl, rfl, rfl⟩,
    ?_⟩
  obtain ⟨m1, m2⟩ :=
    converge_failure_nonfatal_may_fatal_june.1 envMayConvergeFails
      "origin\tgit@github.com:o/r.git (push)" rfl rfl (by decide) (by decide)
      rfl rfl rfl rfl
  obtain ⟨j1, j2⟩ :=
    converge_failure_nonfatal_may_fatal_june.2 envConvergeFails rfl rfl rfl
  exact ⟨m1, m2 "?? x.txt" rfl, j1, j2⟩

/-- A concrete May environment whose pre-commit status check succeeds with
empty output — a working tree with no detectable changes. -/
def envStatusEmpty : MayEnv :=
  { pathExists := true
    sshOk := true
    gitDirExists := true
    fileCreateOk := true
    now := "T"
    git := fun i =>
      match i with
      | 0 => .success "origin\tgit@github.com:me/repo.git (push)"
      | 1 => .success "Already up to date."
      | 2 => .success ""
      | 3 => .calledError "git: 'add.' is not a git command"
      | 4 => .calledError "nothing to commit, working tree clean"
      | 5 => .success "main"
      | 6 => .calledError "rejected"
      | 7 => .success "## main...origin/main"
      | 8 => .calledError "conflict"
      | _ => .calledError "rejected" }

/-- C3 counterexample: on a May run whose `git status --porcelain` succeeds
with empty output (the status check shows no changes), the engine does NOT
short-circuit to NoChanges — the truthy `CompletedProcess` return makes it
proceed to attempt the commit and the push. -/
theorem no_changes_status_not_short_circuited :
    envStatusEmpty.git 2 = .success "" ∧
    (autoPushMay envStatusEmpty).1 ≠ .noChanges ∧
    GitCmd.commit "自动提交于 T" ∈ (autoPushMay envStatusEmpty).2 ∧
    GitCmd.pushPlain "main" ∈ (autoPushMay envStatusEmpty).2 := by
  refine ⟨rfl, by decide, by decide, by decide⟩

/-- C3 amended: the May engine returns the NoChanges outcome exactly when the
status command yields no value (non-zero exit, timeout or exception), issuing
no further git commands in that case; a status command that SUCCEEDS with
empty output — the actual no-changes report — is truthy and the run proceeds
to stage and commit.  (The June engine performs no status check at all.) -/
theorem no_changes_short_circuit_amended (env : MayEnv) (s : String)
    (hpath : env.pathExists = true) (h0 : env.git 0 = .success s)
    (hs : s ≠ "") (hsub : hasSub s "git@github.com" = true)
    (hssh : env.sshOk = true) (hgd : env.gitDirExists = true)
    (hfc : env.fileCreateOk = true) :
    (runGitMay (env.git 2) = .nil →
      (autoPushMay env).1 = .noChanges ∧
      (autoPushMay env).2 =
        [GitCmd.remoteV, GitCmd.resetStashPull, GitCmd.statusPorcelain]) ∧
    (env.git 2 = .success "" →
      GitCmd.addDot ∈ (autoPushMay env).2 ∧
      GitCmd.commit ("自动提交于 " ++ env.now) ∈ (autoPushMay env).2) := by
  have hout : runGitMay (env.git 0) = .out s := by
    simp [h0, runGitMay, hs]
  constructor
  · intro h2
    unfold autoPushMay autoPushMayS mstep St.start
    simp [hpath, hout, hsub, hssh, hgd, hfc, h2, MayRet.truthy]
  · intro h2
    have htr : runGitMay (env.git (0 + 1 + 1)) = .proc := by
      simp [h2, runGitMay]
    have hmemA : GitCmd.addDot ∈
        (mayAfterStatus env.git env.now
          ⟨0 + 1 + 1 + 1, [GitCmd.remoteV, GitCmd.resetStashPull,
            GitCmd.statusPorcelain]⟩).2.trace := by
      obtain ⟨ext, hext⟩ := mayAfterStatus_trace env.git env.now
        ⟨0 + 1 + 1 + 1, [GitCmd.remoteV, GitCmd.resetStashPull,
          GitCmd.statusPorcelain]⟩
      rw [hext]
      simp
    have hmemC : GitCmd.commit ("自动提交于 " ++ env.now) ∈
        (mayAfterStatus env.git env.now
          ⟨0 + 1 + 1 + 1, [GitCmd.remoteV, GitCmd.resetStashPull,
            GitCmd.statusPorcelain]⟩).2.trace := by
      obtain ⟨ext, hext⟩ := mayAfterStatus_trace env.git env.now
        ⟨0 + 1 + 1 + 1, [GitCmd.remoteV, GitCmd.resetStashPull,
          GitCmd.statusPorcelain]⟩
      rw [hext]
      simp
    constructor
    · unfold autoPushMay autoPushMayS mstep St.start
      simpa [hpath, hout, hsub, hssh, hgd, hfc, htr, MayRet.truthy]
        using hmemA
    · unfold autoPushMay autoPushMayS mstep St.start
      simpa [hpath, hout, hsub, hssh, hgd, hfc, htr, MayRet.truthy]
        using hmemC

/-- Witness for `no_changes_short_circuit_amended` at the concrete
environment `envStatusEmpty`. -/
theorem no_changes_short_circuit_amended_witness :
    (envStatusEmpty.pathExists = true ∧
     envStatusEmpty.git 0 =
       .success "origin\tgit@github.com:me/repo.git (push)" ∧
     "origin\tgit@github.com:me/repo.git (push)" ≠ "" ∧
     hasSub "origin\tgit@github.com:me/repo.git (push)" "git@github.com" =
       true ∧
     envStatusEmpty.sshOk = true ∧ envStatusEmpty.gitDirExists = true ∧
     envStatusEmpty.fileCreateOk = true) ∧
    ((runGitMay (envStatusEmpty.git 2) = .nil →
       (autoPushMay envStatusEmpty).1 = .noChanges ∧
       (autoPushMay envStatusEmpty).2 =
         [GitCmd.remoteV, GitCmd.resetStashPull, GitCmd.statusPorcelain]) ∧
     (envStatusEmpty.git 2 = .success "" →
       GitCmd.addDot ∈ (autoPushMay envStatusEmpty).2 ∧
       GitCmd.commit ("自动提交于 " ++ envStatusEmpty.now) ∈
         (autoPushMay envStatusEmpty).2)) :=
  ⟨⟨rfl, rfl, by decide, by decide, rfl, rfl, rfl⟩,
   no_changes_short_circuit_amended envStatusEmpty
     "origin\tgit@github.com:me/repo.git (push)" rfl rfl (by decide)
     (by decide) rfl rfl rfl⟩

/-- C5 amended: the fallback chains of the two engines differ.  June: after a
failed plain push, if the upstream probe reports a missing upstream the
upstream-setting push is the FINAL attempt — no pull of main and no retry
follow it, whatever its result; the pull-and-retry tier runs only when the
probe does not report a missing upstream.  May: a failed upstream-setting
push IS followed by one pull of main and exactly one plain-push retry, whose
result decides between the pushed-after-pull and push-failed outcomes. -/
theorem push_fallback_chain_amended :
    (∀ (git : Nat → CmdResult) (branch s : String),
      runGitCommand (git 0) = none → git 1 = .success s → s ≠ "" →
      hasSub s "[no upstream branch]" = true →
      (attemptPush git branch St.start).trace =
        [GitCmd.pushPlain branch, GitCmd.statusSb,
         GitCmd.pushUpstream branch]) ∧
    (∀ (git : Nat → CmdResult) (branch s : String),
      runGitCommand (git 0) = none → git 1 = .success s → s ≠ "" →
      hasSub s "[no upstream branch]" = false →
      (attemptPush git branch St.start).trace =
        [GitCmd.pushPlain branch, GitCmd.statusSb, GitCmd.pullMain,
         GitCmd.pushPlain branch]) ∧
    (∀ (git : Nat → CmdResult) (branch u : String),
      runGitMay (git 0) = .nil → git 1 = .success u → u ≠ "" →
      hasSub u "[no upstream branch]" = true → runGitMay (git 2) = .nil →
      (mayPushChain git branch St.start).2.trace =
        [GitCmd.pushPlain branch, GitCmd.statusSb, GitCmd.pushUpstream branch,
         GitCmd.pullMain, GitCmd.pushPlain branch] ∧
      ((mayPushChain git branch St.start).1 = .pushedAfterPull ∨
       (mayPushChain git branch St.start).1 = .pushFailed)) := by
  refine ⟨?_, ?_, ?_⟩
  · intro git branch s h0 h1 hs hsub
    have e1 : runGitCommand (git 1) = some s := by
      simp [h1, runGitCommand, hs]
    unfold attemptPush needsUpstream step St.start
    simp [h0, e1, hsub]
  · intro git branch s h0 h1 hs hsub
    have e1 : runGitCommand (git 1) = some s := by
      simp [h1, runGitCommand, hs]
    unfold attemptPush needsUpstream step St.start
    simp [h0, e1, hsub]
  · intro git branch u h0 h1 hu hsub h2
    have e1 : runGitMay (git 1) = .out u := by
      simp [h1, runGitMay, hu]
    constructor
    · unfold mayPushChain mayNeedsUpstream mstep St.start
      cases hg4 : runGitMay (git (0 + 1 + 1 + 1 + 1)) <;>
        simp [MayRet.truthy, h0, e1, hsub, h2, hg4]
    · unfold mayPushChain mayNeedsUpstream mstep St.start
      cases hg4 : runGitMay (git (0 + 1 + 1 + 1 + 1)) <;>
        simp [MayRet.truthy, h0, e1, hsub, h2, hg4]

/-- A May push-chain backend: plain push rejected, upstream probe reports a
missing upstream, upstream push rejected, pull succeeds, retry succeeds. -/
def gitMayUpstreamFails : Nat → CmdResult :=
  fun i =>
    match i with
    | 0 => .calledError "rejected"
    | 1 => .success "## main...origin/main [no upstream branch]"
    | 2 => .calledError "rejected again"
    | 3 => .success "merged"
    | _ => .success "pushed"

/-- Witness for `push_fallback_chain_amended` on concrete backends for the
June tier and the May tier. -/
theorem push_fallback_chain_amended_witness :
    (runGitCommand (gitUpstreamPushFails 0) = none ∧
     gitUpstreamPushFails 1 =
       .success "## main...origin/main [no upstream branch]" ∧
     "## main...origin/main [no upstream branch]" ≠ "" ∧
     hasSub "## main...origin/main [no upstream branch]"
       "[no upstream branch]" = true ∧
     runGitMay (gitMayUpstreamFails 0) = .nil ∧
     gitMayUpstreamFails 1 =
       .success "## main...origin/main [no upstream branch]" ∧
     runGitMay (gitMayUpstreamFails 2) = .nil) ∧
    ((attemptPush gitUpstreamPushFails "dev" St.start).trace =
       [GitCmd.pushPlain "dev", GitCmd.statusSb, GitCmd.pushUpstream "dev"] ∧
     (mayPushChain gitMayUpstreamFails "dev" St.start).2.trace =
       [GitCmd.pushPlain "dev", GitCmd.statusSb, GitCmd.pushUpstream "dev",
        GitCmd.pullMain, GitCmd.pushPlain "dev"] ∧
     ((mayPushChain gitMayUpstreamFails "dev" St.start).1 = .pushedAfterPull ∨
      (mayPushChain gitMayUpstreamFails "dev" St.start).1 = .pushFailed)) := by
  refine ⟨⟨rfl, rfl, by decide, by decide, rfl, rfl, rfl⟩, ?_⟩
  obtain ⟨t1, t2⟩ :=
    push_fallback_chain_amended.2.2 gitMayUpstreamFails "dev"
      "## main...origin/main [no upstream branch]" rfl rfl (by decide)
      (by decide) rfl
  exact ⟨push_fallback_chain_amended.1 gitUpstreamPushFails "dev"
    "## main...origin/main [no upstream branch]" rfl rfl (by decide)
    (by decide), t1, t2⟩
